import Mathlib

/-!
Shallow embedding of the CryptoViz normalized-trend pipeline
(`crypto-frontend/public/js/normalized-trend.js`): the time-series aligner
`processChartData`, the per-series normalizations computed inside
`renderZeroBasedChart` and `renderMinMaxChart`, and the time-range filtering
step of `fetchHistoricalData`.

Modelling conventions:
* JS numbers are modelled as rationals (`Rat`); prices arriving from the API
  are finite numbers.  A JS arithmetic result that is not a finite number
  (`NaN` or `±Infinity`, arising only from division by zero here) is modelled
  explicitly by the `JSValue.nan` constructor in the normalization stage,
  whose input domain (per the data model: aligned values are `float64 | null`)
  is `List (Option Rat)`.
* Timestamps are strings; `new Date(ts).getTime()` is modelled by an abstract
  parameter `dateVal : String → Int` (milliseconds since epoch).
* The JS object used as `priceMap` is modelled as a finite lookup in which the
  last assignment for a key wins, matching the construction loop.
* `Array.prototype.sort()` (no comparator) compares elements as strings,
  code-unit-wise; it is modelled by an insertion sort over a structural
  lexicographic comparison.  On lists of distinct strings every comparison
  sort produces the same output, so the choice of algorithm is immaterial.
* JS truthiness: `beforeTimestamp` / `afterTimestamp` hold `null` or a string,
  and the source tests them with `if (x)`, which is false both for `null` and
  for the empty string.  The model checks `Option.isSome` and then compares
  against `""` explicitly.
-/

namespace CryptoViz

/-- Input series for one cryptocurrency as returned by `fetchHistoricalData`:
parallel arrays of timestamp strings and prices. -/
structure CryptoSeries where
  symbol : String
  timestamps : List String
  prices : List Rat
deriving DecidableEq

/-- Aligned output entry for one cryptocurrency produced by `processChartData`. -/
structure ProcessedCrypto where
  symbol : String
  interpolatedPrices : List (Option Rat)
deriving DecidableEq

/-- Result of `processChartData`: the unified timeline (`labels`) and the
aligned series. -/
structure ProcessedData where
  labels : List String
  processedCryptos : List ProcessedCrypto
deriving DecidableEq

/-- Lookup modelling the `priceMap` object built in `processChartData`
(lines 172-176): `priceMap[crypto.timestamps[i]] = crypto.prices[i]` for
increasing `i`, so for a duplicated timestamp the last assignment wins;
a key that was never assigned yields `undefined`, modelled as `none`. -/
def priceMap (crypto : CryptoSeries) (ts : String) : Option Rat :=
  ((crypto.timestamps.zip crypto.prices).reverse).lookup ts

/-- Strict lexicographic comparison of char lists, modelling the comparison
used by `Array.prototype.sort()` without a comparator, which converts
elements to strings and compares them code-unit-wise. -/
def charListLt : List Char → List Char → Bool
  | [], [] => false
  | [], _ :: _ => true
  | _ :: _, [] => false
  | a :: as, b :: bs => if a < b then true else if b < a then false else charListLt as bs

/-- Non-strict string comparison derived from `charListLt`. -/
def jsStringLe (a b : String) : Bool := !(charListLt b.data a.data)

/-- Insertion step of the sort model. -/
def insertSorted (a : String) : List String → List String
  | [] => [a]
  | b :: bs => if jsStringLe a b then a :: b :: bs else b :: insertSorted a bs

/-- Insertion sort over the default JS string comparison.  The source's
`Array.from(allTimestamps).sort()` sorts the (distinct) timestamps of the
`Set`; on distinct elements every comparison sort agrees, so insertion sort
is a faithful model of the result. -/
def sortStrings : List String → List String
  | [] => []
  | a :: as => insertSorted a (sortStrings as)

/-- Timeline computed in `processChartData` (lines 160-168): the `Set` of all
timestamps of all series (deduplicated; order before sorting is immaterial),
sorted with the default string sort.  Note the source comment says "sort
chronologically" but `.sort()` without a comparator is lexicographic. -/
def labels (cryptoData : List CryptoSeries) : List String :=
  sortStrings ((cryptoData.map CryptoSeries.timestamps).flatten.dedup)

/-- Backward scan of `processChartData` (lines 190-196): nearest timeline
index `j < i` whose timestamp has a price in `pm`, scanning `j = i-1, ..., 0`.
Scanning `labs[i-1], ..., labs[0]` is `find?` on the reversed `i`-prefix. -/
def findBeforeTimestamp (pm : String → Option Rat) (labs : List String) (i : Nat) :
    Option String :=
  ((labs.take i).reverse).find? (fun ts => (pm ts).isSome)

/-- Forward scan of `processChartData` (lines 198-204): nearest timeline index
`j > i` whose timestamp has a price in `pm`, scanning `j = i+1, ...`. -/
def findAfterTimestamp (pm : String → Option Rat) (labs : List String) (i : Nat) :
    Option String :=
  (labs.drop (i + 1)).find? (fun ts => (pm ts).isSome)

/-- Aligned value of one series at timeline index `i`, per the loop body of
`processChartData` (lines 180-228): exact value if present, else linear
interpolation between the nearest known neighbours by wall-clock time, else
flat extrapolation from the single known side, else `null`.

The branch conditions `if (beforeTimestamp && afterTimestamp)` etc. use JS
truthiness: `null` and the empty string are both falsy, hence the explicit
comparisons with `""`.  In the interpolation branch the two `priceMap` reads
are known to be defined (the scans selected timestamps with `isSome`), so the
`getD 0` defaults are unreachable.  When `afterTime - beforeTime = 0` (two
distinct timestamp strings denoting the same instant) JS would produce a
non-finite number; `Rat` division by zero yields `0` instead, and every
theorem below that touches this branch assumes strictly increasing times. -/
def interpolatedPriceAt (dateVal : String → Int) (pm : String → Option Rat)
    (labs : List String) (i : Nat) : Option Rat :=
  let timestamp := labs.getD i ""
  match pm timestamp with
  | some p => some p
  | none =>
    match findBeforeTimestamp pm labs i, findAfterTimestamp pm labs i with
    | some beforeTimestamp, some afterTimestamp =>
      if beforeTimestamp = "" then
        if afterTimestamp = "" then none else pm afterTimestamp
      else if afterTimestamp = "" then pm beforeTimestamp
      else
        let beforePrice := (pm beforeTimestamp).getD 0
        let afterPrice := (pm afterTimestamp).getD 0
        let beforeTime : Int := dateVal beforeTimestamp
        let afterTime : Int := dateVal afterTimestamp
        let currentTime : Int := dateVal timestamp
        some (beforePrice +
          ((currentTime : Rat) - (beforeTime : Rat)) / ((afterTime : Rat) - (beforeTime : Rat))
            * (afterPrice - beforePrice))
    | some beforeTimestamp, none => if beforeTimestamp = "" then none else pm beforeTimestamp
    | none, some afterTimestamp => if afterTimestamp = "" then none else pm afterTimestamp
    | none, none => none

/-- Model of `processChartData` (lines 157-241): unified timeline plus, for
each input series in order, its aligned (interpolated) values. -/
def processChartData (dateVal : String → Int) (cryptoData : List CryptoSeries) :
    ProcessedData :=
  let labs := labels cryptoData
  { labels := labs
    processedCryptos := cryptoData.map fun crypto =>
      { symbol := crypto.symbol
        interpolatedPrices :=
          (List.range labs.length).map fun i =>
            interpolatedPriceAt dateVal (priceMap crypto) labs i } }

/-- Value type of the normalization output: a JS `number | null` where `nan`
stands for a non-finite number (NaN or `±Infinity`) produced by division by
zero. -/
inductive JSValue where
  | null : JSValue
  | nan : JSValue
  | num : Rat → JSValue
deriving DecidableEq

/-- Per-series normalization computed inside `renderMinMaxChart` (lines
455-466): `validPrices` are the non-null aligned values, `minPrice` and
`maxPrice` their min and max (`Math.min(...validPrices)` / `Math.max(...)`),
and each non-null `price` maps to `((price - minPrice) / (maxPrice -
minPrice)) * 100`, nulls staying null.  When `maxPrice - minPrice = 0` the JS
division yields `0/0 = NaN` (every value then equals `minPrice`), modelled by
the zero-denominator guard.  When `validPrices` is empty (only reachable with
no non-null price at all, hence dead in the `map`) JS would compute
`(p - Infinity) / (-Infinity - Infinity) = NaN`. -/
def minMaxNormalizedPrices (interpolatedPrices : List (Option Rat)) : List JSValue :=
  let validPrices := interpolatedPrices.filterMap id
  interpolatedPrices.map fun price =>
    match price with
    | none => JSValue.null
    | some p =>
      match validPrices.min?, validPrices.max? with
      | some minPrice, some maxPrice =>
        if maxPrice - minPrice = 0 then JSValue.nan
        else JSValue.num ((p - minPrice) / (maxPrice - minPrice) * 100)
      | _, _ => JSValue.nan

/-- Per-series normalization computed inside `renderZeroBasedChart` (lines
247-259): identical to the min-max computation except that `minPrice` is the
constant `0` ("Use 0 as the minimum price").  When `maxPrice = 0` the JS
division yields `0/0 = NaN` (for `price = 0`) or `-Infinity` (for a negative
price), both non-finite, modelled by `nan`.  The empty-`validPrices` branch is
dead in the `map`; JS would compute `(p - 0) / (-Infinity - 0) * 100 = -0`. -/
def zeroBasedNormalizedPrices (interpolatedPrices : List (Option Rat)) : List JSValue :=
  let validPrices := interpolatedPrices.filterMap id
  let minPrice : Rat := 0
  interpolatedPrices.map fun price =>
    match price with
    | none => JSValue.null
    | some p =>
      match validPrices.max? with
      | some maxPrice =>
        if maxPrice - minPrice = 0 then JSValue.nan
        else JSValue.num ((p - minPrice) / (maxPrice - minPrice) * 100)
      | none => JSValue.num 0

/-- Cutoff computation of `fetchHistoricalData` (lines 79-88): `cutoffTime`
is assigned only for the ranges `24h`, `7d` and `1m`; any other range leaves
it `undefined`, modelled as `none`. -/
def cutoffTime (currentTime : Int) (timeRange : String) : Option Int :=
  if timeRange = "24h" then some (currentTime - 24 * 60 * 60 * 1000)
  else if timeRange = "7d" then some (currentTime - 7 * 24 * 60 * 60 * 1000)
  else if timeRange = "1m" then some (currentTime - 30 * 24 * 60 * 60 * 1000)
  else none

/-- Filtering step of `fetchHistoricalData` (lines 90-101): keep the points
whose timestamp satisfies `timestamp >= cutoffTime && timestamp <= currentTime`.
In JS a date compared with an `undefined` cutoff converts `undefined` to `NaN`
and the comparison is false, so an unknown range keeps nothing. -/
def fetchHistoricalDataFiltered (dateVal : String → Int) (currentTime : Int)
    (timeRange : String) (timestamps : List String) (prices : List Rat) :
    List String × List Rat :=
  let cutoff := cutoffTime currentTime timeRange
  let keep : String → Bool := fun ts =>
    match cutoff with
    | none => false
    | some c => decide (c ≤ dateVal ts) && decide (dateVal ts ≤ currentTime)
  let filtered := (timestamps.zip prices).filter fun pt => keep pt.1
  (filtered.map Prod.fst, filtered.map Prod.snd)

/-- Concrete date-value function used by witnesses and counterexamples:
timestamps written as decimal epoch-millisecond strings (one of the timestamp
forms admitted by the data model), so `new Date(ts).getTime()` is the parsed
number. -/
def epochDateVal (s : String) : Int :=
  Int.ofNat (s.data.foldl (fun n c => n * 10 + (c.toNat - 48)) 0)

end CryptoViz

/-! Auxiliary list lemmas used by the claim theorems. -/

namespace CryptoViz

/-- Default `CryptoSeries` used only as a `getD` fallback. -/
def noSeries : CryptoSeries := ⟨"", [], []⟩

/-- Default `ProcessedCrypto` used only as a `getD` fallback. -/
def noProcessed : ProcessedCrypto := ⟨"", []⟩

/-- Concrete input series used by witnesses: BTC with points at epoch strings
"1" and "3" (the concrete scenario of the spec with `t1 < t2 < t3`). -/
def btcW : CryptoSeries := ⟨"btc", ["1", "3"], [100, 110]⟩

/-- Concrete input series used by witnesses: ETH with a single point at "2". -/
def ethW : CryptoSeries := ⟨"eth", ["2"], [50]⟩

/-- Concrete empty input series used by witnesses. -/
def emptyW : CryptoSeries := ⟨"empty", [], []⟩

theorem getD_of_lt {α : Type} (l : List α) (n : Nat) (d : α) (h : n < l.length) :
    l.getD n d = l[n] := by
  rw [List.getD_eq_getElem?_getD, List.getElem?_eq_getElem h, Option.getD_some]

theorem getD_map_of_lt {α β : Type} (f : α → β) (l : List α) (k : Nat) (d : β) (d2 : α)
    (hk : k < l.length) : (l.map f).getD k d = f (l.getD k d2) := by
  rw [getD_of_lt _ _ _ (by simpa using hk), List.getElem_map, getD_of_lt _ _ _ hk]

theorem foldl_min_le_rat (xs : List Rat) (x : Rat) :
    xs.foldl min x ≤ x ∧ ∀ b ∈ xs, xs.foldl min x ≤ b := by
  induction xs generalizing x with
  | nil => exact ⟨le_refl x, by simp⟩
  | cons y ys ih =>
    simp only [List.foldl_cons]
    refine ⟨le_trans (ih (min x y)).1 (min_le_left x y), ?_⟩
    intro b hb
    rcases List.mem_cons.1 hb with rfl | hb
    · exact le_trans (ih (min x b)).1 (min_le_right x b)
    · exact (ih (min x y)).2 b hb

theorem foldl_le_max_rat (xs : List Rat) (x : Rat) :
    x ≤ xs.foldl max x ∧ ∀ b ∈ xs, b ≤ xs.foldl max x := by
  induction xs generalizing x with
  | nil => exact ⟨le_refl x, by simp⟩
  | cons y ys ih =>
    simp only [List.foldl_cons]
    refine ⟨le_trans (le_max_left x y) (ih (max x y)).1, ?_⟩
    intro b hb
    rcases List.mem_cons.1 hb with rfl | hb
    · exact le_trans (le_max_right x b) (ih (max x b)).1
    · exact (ih (max x y)).2 b hb

theorem min?_le_of_mem {l : List Rat} {a b : Rat} (h : l.min? = some a) (hb : b ∈ l) :
    a ≤ b := by
  cases l with
  | nil => cases hb
  | cons x xs =>
    simp only [List.min?] at h
    rcases Option.some.inj h with rfl
    rcases List.mem_cons.1 hb with rfl | hb
    · exact (foldl_min_le_rat xs b).1
    · exact (foldl_min_le_rat xs x).2 b hb

theorem le_max?_of_mem {l : List Rat} {a b : Rat} (h : l.max? = some a) (hb : b ∈ l) :
    b ≤ a := by
  cases l with
  | nil => cases hb
  | cons x xs =>
    simp only [List.max?] at h
    rcases Option.some.inj h with rfl
    rcases List.mem_cons.1 hb with rfl | hb
    · exact (foldl_le_max_rat xs b).1
    · exact (foldl_le_max_rat xs x).2 b hb

theorem foldl_min_replicate (n : Nat) (c : Rat) : (List.replicate n c).foldl min c = c := by
  induction n with
  | zero => rfl
  | succ n ih => simpa [List.replicate_succ, min_self] using ih

theorem foldl_max_replicate (n : Nat) (c : Rat) : (List.replicate n c).foldl max c = c := by
  induction n with
  | zero => rfl
  | succ n ih => simpa [List.replicate_succ, max_self] using ih

theorem min?_max?_of_all_eq {l : List Rat} {c : Rat} (hne : l ≠ [])
    (hall : ∀ x ∈ l, x = c) : l.min? = some c ∧ l.max? = some c := by
  have hrep := List.eq_replicate_of_mem hall
  cases l with
  | nil => exact absurd rfl hne
  | cons x xs =>
    rw [List.length_cons, List.replicate_succ] at hrep
    obtain ⟨rfl, hxs⟩ : x = c ∧ xs = List.replicate xs.length c :=
      ⟨List.head_eq_of_cons_eq hrep, List.tail_eq_of_cons_eq hrep⟩
    constructor
    · simp only [List.min?]
      rw [hxs, foldl_min_replicate]
    · simp only [List.max?]
      rw [hxs, foldl_max_replicate]

end CryptoViz

/-! Claim theorems. -/

namespace CryptoViz

/-- C1 (code bug evaluation): the timeline is the deduplicated union of the
input timestamps, but it is sorted lexicographically as strings, not by date
value, contradicting the source's own comment "sort chronologically".  With
epoch-millisecond timestamp strings "90" and "100" (dates 90 and 100), the
produced timeline is `["100", "90"]`: the chronologically earlier timestamp
comes second, so the timeline is not sorted ascending by date value. -/
theorem claim_C1_lexicographic_timeline :
    labels [⟨"btc", ["90"], [1]⟩, ⟨"eth", ["100"], [2]⟩] = ["100", "90"] ∧
    epochDateVal "90" < epochDateVal "100" := by
  constructor
  · decide
  · decide

/-- C10: for any time range other than "24h", "7d" and "1m", `cutoffTime`
stays undefined, every comparison against it is false, and the filtering step
of `fetchHistoricalData` returns empty timestamp and price arrays without
raising. -/
theorem claim_C10_unknown_range_filters_everything (dateVal : String → Int)
    (currentTime : Int) (timeRange : String) (timestamps : List String)
    (prices : List Rat) (h24 : timeRange ≠ "24h") (h7 : timeRange ≠ "7d")
    (h1 : timeRange ≠ "1m") :
    fetchHistoricalDataFiltered dateVal currentTime timeRange timestamps prices = ([], []) := by
  simp [fetchHistoricalDataFiltered, cutoffTime, h24, h7, h1]

/-- C10 witness: the range "1y" (not one of the three known ranges) filters
out every point of a concrete series. -/
theorem claim_C10_witness :
    (("1y" : String) ≠ "24h" ∧ ("1y" : String) ≠ "7d" ∧ ("1y" : String) ≠ "1m") ∧
    fetchHistoricalDataFiltered epochDateVal 1000 "1y" ["5", "10"] [1, 2] = ([], []) :=
  ⟨⟨by decide, by decide, by decide⟩,
   claim_C10_unknown_range_filters_everything epochDateVal 1000 "1y" ["5", "10"] [1, 2]
     (by decide) (by decide) (by decide)⟩

/-- C9: null entries of an aligned series stay null under both normalizations
(never coerced to 0), and an all-null aligned series normalizes to an
all-null series without raising. -/
theorem claim_C9_null_propagation (prices : List (Option Rat)) :
    (∀ i, i < prices.length → prices.getD i none = none →
      (minMaxNormalizedPrices prices).getD i (JSValue.num 0) = JSValue.null ∧
      (zeroBasedNormalizedPrices prices).getD i (JSValue.num 0) = JSValue.null) ∧
    ((∀ p ∈ prices, p = none) →
      minMaxNormalizedPrices prices = List.replicate prices.length JSValue.null ∧
      zeroBasedNormalizedPrices prices = List.replicate prices.length JSValue.null) := by
  constructor
  · intro i hi hnull
    constructor
    · simp only [minMaxNormalizedPrices]
      rw [getD_map_of_lt _ _ _ _ none hi, hnull]
    · simp only [zeroBasedNormalizedPrices]
      rw [getD_map_of_lt _ _ _ _ none hi, hnull]
  · intro hall
    constructor
    · rw [show prices.length = (minMaxNormalizedPrices prices).length by
        simp [minMaxNormalizedPrices]]
      apply List.eq_replicate_of_mem
      intro v hv
      simp only [minMaxNormalizedPrices, List.mem_map] at hv
      obtain ⟨x, hx, hfx⟩ := hv
      rw [hall x hx] at hfx
      exact hfx.symm
    · rw [show prices.length = (zeroBasedNormalizedPrices prices).length by
        simp [zeroBasedNormalizedPrices]]
      apply List.eq_replicate_of_mem
      intro v hv
      simp only [zeroBasedNormalizedPrices, List.mem_map] at hv
      obtain ⟨x, hx, hfx⟩ := hv
      rw [hall x hx] at hfx
      exact hfx.symm

/-- C9 witness: a concrete null entry stays null under both policies, and a
concrete all-null series normalizes to all-null under both policies. -/
theorem claim_C9_witness :
    (1 < ([some (5 : Rat), none] : List (Option Rat)).length ∧
     ([some (5 : Rat), none] : List (Option Rat)).getD 1 none = none ∧
     (minMaxNormalizedPrices [some (5 : Rat), none]).getD 1 (JSValue.num 0) = JSValue.null ∧
     (zeroBasedNormalizedPrices [some (5 : Rat), none]).getD 1 (JSValue.num 0) = JSValue.null) ∧
    (minMaxNormalizedPrices [none, none] =
       List.replicate ([none, none] : List (Option Rat)).length JSValue.null ∧
     zeroBasedNormalizedPrices [none, none] =
       List.replicate ([none, none] : List (Option Rat)).length JSValue.null) :=
  ⟨⟨by norm_num, by simp,
    ((claim_C9_null_propagation [some (5 : Rat), none]).1 1 (by norm_num) (by simp)).1,
    ((claim_C9_null_propagation [some (5 : Rat), none]).1 1 (by norm_num) (by simp)).2⟩,
   (claim_C9_null_propagation [none, none]).2 (by simp)⟩

end CryptoViz

namespace CryptoViz

/-- C3 counterexample: the source has no constant-series fallback.  For the
constant aligned series `[5, 5]`, min-max normalization computes `0/0`, i.e.
NaN, at every entry — not the claimed midpoint 50 — and for the constant-zero
series `[0, 0]`, zero-based normalization also computes `0/0` (NaN), not the
claimed 0. -/
theorem claim_C3_counterexample :
    minMaxNormalizedPrices [some 5, some 5] = [JSValue.nan, JSValue.nan] ∧
    JSValue.nan ≠ JSValue.num 50 ∧
    zeroBasedNormalizedPrices [some 0, some 0] = [JSValue.nan, JSValue.nan] ∧
    JSValue.nan ≠ JSValue.num 0 := by
  refine ⟨?_, by simp, ?_, by simp⟩
  · simp [minMaxNormalizedPrices, List.min?, List.max?]
  · simp [zeroBasedNormalizedPrices, List.max?]

/-- C3 amended: normalizing a series whose non-null values all equal one
constant `c` never raises (the functions are total), but instead of a
midpoint fallback every non-null entry becomes NaN under min-max, and under
zero-based it becomes NaN when `c = 0` and `v/hi*100 = 100` otherwise; nulls
stay null. -/
theorem claim_C3_constant_series (prices : List (Option Rat)) (c : Rat)
    (hc : ∀ p ∈ prices, p = none ∨ p = some c) :
    minMaxNormalizedPrices prices =
      prices.map (fun p => match p with
        | none => JSValue.null
        | some _ => JSValue.nan) ∧
    zeroBasedNormalizedPrices prices =
      prices.map (fun p => match p with
        | none => JSValue.null
        | some _ => if c = 0 then JSValue.nan else JSValue.num 100) := by
  have hval : ∀ x ∈ prices.filterMap id, x = c := by
    intro x hx
    obtain ⟨a, ha, hax⟩ := List.mem_filterMap.1 hx
    rcases hc a ha with rfl | rfl
    · cases hax
    · cases hax
      rfl
  constructor
  · simp only [minMaxNormalizedPrices]
    apply List.map_congr_left
    intro a ha
    rcases hc a ha with rfl | rfl
    · rfl
    · have hmem : c ∈ prices.filterMap id := List.mem_filterMap.2 ⟨some c, ha, rfl⟩
      have hne : prices.filterMap id ≠ [] := by
        intro h
        rw [h] at hmem
        cases hmem
      obtain ⟨hmin, hmax⟩ := min?_max?_of_all_eq hne hval
      simp [hmin, hmax]
  · simp only [zeroBasedNormalizedPrices]
    apply List.map_congr_left
    intro a ha
    rcases hc a ha with rfl | rfl
    · rfl
    · have hmem : c ∈ prices.filterMap id := List.mem_filterMap.2 ⟨some c, ha, rfl⟩
      have hne : prices.filterMap id ≠ [] := by
        intro h
        rw [h] at hmem
        cases hmem
      obtain ⟨hmin, hmax⟩ := min?_max?_of_all_eq hne hval
      rw [hmax]
      by_cases hc0 : c = 0
      · simp [hc0]
      · have : c - 0 ≠ 0 := by rwa [sub_zero]
        simp only [this, if_false, hc0, sub_zero, div_self hc0]
        norm_num

/-- C3 witness: the constant series `[7, null, 7]` maps to `[NaN, null, NaN]`
under min-max and to `[100, null, 100]` under zero-based normalization. -/
theorem claim_C3_witness :
    (∀ p ∈ ([some 7, none, some 7] : List (Option Rat)), p = none ∨ p = some 7) ∧
    minMaxNormalizedPrices [some 7, none, some 7] =
      ([some 7, none, some 7] : List (Option Rat)).map (fun p => match p with
        | none => JSValue.null
        | some _ => JSValue.nan) ∧
    zeroBasedNormalizedPrices [some 7, none, some 7] =
      ([some 7, none, some 7] : List (Option Rat)).map (fun p => match p with
        | none => JSValue.null
        | some _ => if (7 : Rat) = 0 then JSValue.nan else JSValue.num 100) :=
  ⟨by simp,
   (claim_C3_constant_series [some 7, none, some 7] 7 (by simp)).1,
   (claim_C3_constant_series [some 7, none, some 7] 7 (by simp)).2⟩

end CryptoViz

namespace CryptoViz

/-- C7 counterexample: the zero-based normalization does not keep non-null
values inside `[90, 100]`.  For the aligned series `[10, 100]` it produces
`[10, 100]` (each value is `v / max * 100`), and `10 < 90`. -/
theorem claim_C7_counterexample :
    zeroBasedNormalizedPrices [some 10, some 100] = [JSValue.num 10, JSValue.num 100] ∧
    (10 : Rat) < 90 := by
  constructor
  · simp [zeroBasedNormalizedPrices, List.max?]
    norm_num
  · norm_num

/-- C7 amended: every finite numeric output of min-max normalization lies in
`[0, 100]`, and so does every finite numeric output of zero-based
normalization provided the non-null inputs are non-negative (the data-model
invariant for prices); the `[90, 100]` window of the zero-based chart is only
the rendering surface's axis range, not an output invariant. -/
theorem claim_C7_output_ranges (prices : List (Option Rat))
    (hpos : ∀ p : Rat, some p ∈ prices → 0 ≤ p) :
    (∀ v ∈ minMaxNormalizedPrices prices, ∀ q : Rat, v = JSValue.num q →
      0 ≤ q ∧ q ≤ 100) ∧
    (∀ v ∈ zeroBasedNormalizedPrices prices, ∀ q : Rat, v = JSValue.num q →
      0 ≤ q ∧ q ≤ 100) := by
  constructor
  · intro v hv q hq
    simp only [minMaxNormalizedPrices, List.mem_map] at hv
    obtain ⟨x, hx, hfx⟩ := hv
    subst hfx
    cases x with
    | none => cases hq
    | some p =>
      have hpmem : p ∈ prices.filterMap id := List.mem_filterMap.2 ⟨some p, hx, rfl⟩
      simp only at hq
      rcases hmin : (prices.filterMap id).min? with _ | lo
      · rw [hmin] at hq
        rcases hmax : (prices.filterMap id).max? with _ | hi <;> rw [hmax] at hq <;> cases hq
      · rw [hmin] at hq
        rcases hmax : (prices.filterMap id).max? with _ | hi
        · rw [hmax] at hq
          cases hq
        · rw [hmax] at hq
          simp only at hq
          by_cases hd : hi - lo = 0
          · rw [if_pos hd] at hq
            cases hq
          · rw [if_neg hd] at hq
            have hlo : lo ≤ p := min?_le_of_mem hmin hpmem
            have hhi : p ≤ hi := le_max?_of_mem hmax hpmem
            have hpos2 : 0 < hi - lo :=
              lt_of_le_of_ne (by linarith) (Ne.symm hd)
            have hr0 : 0 ≤ (p - lo) / (hi - lo) :=
              div_nonneg (by linarith) (le_of_lt hpos2)
            have hr1 : (p - lo) / (hi - lo) ≤ 1 :=
              (div_le_one hpos2).2 (by linarith)
            rcases JSValue.num.inj hq with rfl
            constructor
            · nlinarith
            · nlinarith
  · intro v hv q hq
    simp only [zeroBasedNormalizedPrices, List.mem_map] at hv
    obtain ⟨x, hx, hfx⟩ := hv
    subst hfx
    cases x with
    | none => cases hq
    | some p =>
      have hpmem : p ∈ prices.filterMap id := List.mem_filterMap.2 ⟨some p, hx, rfl⟩
      simp only at hq
      rcases hmax : (prices.filterMap id).max? with _ | hi
      · rw [hmax] at hq
        rcases JSValue.num.inj hq with rfl
        norm_num
      · rw [hmax] at hq
        simp only at hq
        by_cases hd : hi - (0 : Rat) = 0
        · rw [if_pos hd] at hq
          cases hq
        · rw [if_neg hd] at hq
          have hp0 : 0 ≤ p := hpos p hx
          have hhi : p ≤ hi := le_max?_of_mem hmax hpmem
          have hhi0 : 0 < hi := by
            rw [sub_zero] at hd
            exact lt_of_le_of_ne (by linarith) (Ne.symm hd)
          have hr0 : 0 ≤ (p - 0) / (hi - 0) := div_nonneg (by linarith) (by linarith)
          have hr1 : (p - 0) / (hi - 0) ≤ 1 := (div_le_one (by linarith)).2 (by linarith)
          rcases JSValue.num.inj hq with rfl
          constructor
          · nlinarith
          · nlinarith

/-- C7 witness: for the non-negative aligned series `[10, 100]` every numeric
output of both normalizations lies in `[0, 100]`. -/
theorem claim_C7_witness :
    (∀ p : Rat, some p ∈ ([some 10, some 100] : List (Option Rat)) → 0 ≤ p) ∧
    (∀ v ∈ minMaxNormalizedPrices [some 10, some 100], ∀ q : Rat, v = JSValue.num q →
      0 ≤ q ∧ q ≤ 100) ∧
    (∀ v ∈ zeroBasedNormalizedPrices [some 10, some 100], ∀ q : Rat, v = JSValue.num q →
      0 ≤ q ∧ q ≤ 100) :=
  ⟨by
    intro p hp
    simp at hp
    rcases hp with rfl | rfl <;> norm_num,
   (claim_C7_output_ranges [some 10, some 100] (by
      intro p hp
      simp at hp
      rcases hp with rfl | rfl <;> norm_num)).1,
   (claim_C7_output_ranges [some 10, some 100] (by
      intro p hp
      simp at hp
      rcases hp with rfl | rfl <;> norm_num)).2⟩

end CryptoViz

namespace CryptoViz

/-- C8: for an aligned series whose non-null minimum `m` and maximum `M` are
distinct, min-max normalization yields exactly 0 at an index holding `m` and
exactly 100 at an index holding `M`. -/
theorem claim_C8_minmax_extremes (prices : List (Option Rat)) (m M : Rat) (i j : Nat)
    (hm : (prices.filterMap id).min? = some m)
    (hM : (prices.filterMap id).max? = some M) (hmM : m ≠ M)
    (hi : i < prices.length) (hj : j < prices.length)
    (hpi : prices.getD i none = some m) (hpj : prices.getD j none = some M) :
    (minMaxNormalizedPrices prices).getD i JSValue.null = JSValue.num 0 ∧
    (minMaxNormalizedPrices prices).getD j JSValue.null = JSValue.num 100 := by
  have hmem : m ∈ prices.filterMap id := List.min?_mem min_choice hm
  have hle : m ≤ M := le_max?_of_mem hM hmem
  have hd : M - m ≠ 0 := by
    intro h
    exact hmM (by linarith [sub_eq_zero.1 h])
  constructor
  · simp only [minMaxNormalizedPrices]
    rw [getD_map_of_lt _ _ _ _ none hi, hpi]
    simp only [hm, hM, hd, if_false]
    norm_num
  · simp only [minMaxNormalizedPrices]
    rw [getD_map_of_lt _ _ _ _ none hj, hpj]
    simp only [hm, hM, hd, if_false]
    rw [div_self hd]
    norm_num

/-- C8 witness: min-max normalizing the aligned series `[100, 105, 110]`
yields 0 at the minimum's index and 100 at the maximum's index, and the full
output is `[0, 50, 100]`. -/
theorem claim_C8_witness :
    (([some 100, some 105, some 110] : List (Option Rat)).filterMap id).min? = some 100 ∧
    (([some 100, some 105, some 110] : List (Option Rat)).filterMap id).max? = some 110 ∧
    (100 : Rat) ≠ 110 ∧
    (minMaxNormalizedPrices [some 100, some 105, some 110]).getD 0 JSValue.null =
      JSValue.num 0 ∧
    (minMaxNormalizedPrices [some 100, some 105, some 110]).getD 2 JSValue.null =
      JSValue.num 100 ∧
    minMaxNormalizedPrices [some 100, some 105, some 110] =
      [JSValue.num 0, JSValue.num 50, JSValue.num 100] :=
  ⟨by norm_num [List.min?, List.filterMap_cons], by norm_num [List.max?, List.filterMap_cons], by norm_num,
   (claim_C8_minmax_extremes [some 100, some 105, some 110] 100 110 0 2
      (by norm_num [List.min?, List.filterMap_cons]) (by norm_num [List.max?, List.filterMap_cons]) (by norm_num)
      (by norm_num) (by norm_num) (by simp) (by simp)).1,
   (claim_C8_minmax_extremes [some 100, some 105, some 110] 100 110 0 2
      (by norm_num [List.min?, List.filterMap_cons]) (by norm_num [List.max?, List.filterMap_cons]) (by norm_num)
      (by norm_num) (by norm_num) (by simp) (by simp)).2,
   by
    simp [minMaxNormalizedPrices, List.min?, List.max?]
    norm_num⟩

end CryptoViz

namespace CryptoViz

theorem find?_eq_some_of_first (p : String → Bool) (l : List String) (j : Nat)
    (hj : j < l.length) (ht : p (l.getD j "") = true)
    (hf : ∀ t, t < j → p (l.getD t "") = false) :
    l.find? p = some (l.getD j "") := by
  induction l generalizing j with
  | nil => exact absurd hj (by simp)
  | cons x xs ih =>
    cases j with
    | zero =>
      rw [List.getD_cons_zero] at ht ⊢
      exact List.find?_cons_of_pos _ ht
    | succ j =>
      have hx : p x = false := by
        have := hf 0 (Nat.succ_pos j)
        rwa [List.getD_cons_zero] at this
      rw [List.getD_cons_succ, List.find?_cons_of_neg _ (by rw [hx]; exact Bool.false_ne_true)]
      exact ih j (Nat.lt_of_succ_lt_succ hj) (by rwa [List.getD_cons_succ] at ht)
        (fun t htj => by
          have := hf (t + 1) (Nat.succ_lt_succ htj)
          rwa [List.getD_cons_succ] at this)

theorem find?_eq_none_of_all (p : String → Bool) (l : List String)
    (h : ∀ t, t < l.length → p (l.getD t "") = false) : l.find? p = none := by
  rw [List.find?_eq_none]
  intro x hx
  obtain ⟨n, hn, rfl⟩ := List.mem_iff_getElem.1 hx
  have := h n hn
  rw [getD_of_lt _ _ _ hn] at this
  simp [this]

theorem getD_drop (l : List String) (n t : Nat) (h : n + t < l.length) :
    (l.drop n).getD t "" = l.getD (n + t) "" := by
  have h2 : t < (l.drop n).length := by
    rw [List.length_drop]
    omega
  rw [getD_of_lt _ _ _ h2, getD_of_lt _ _ _ h, List.getElem_drop]

theorem getD_reverse_take (l : List String) (i t : Nat) (hi : i ≤ l.length) (ht : t < i) :
    ((l.take i).reverse).getD t "" = l.getD (i - 1 - t) "" := by
  have hlen : (l.take i).length = i := by
    rw [List.length_take]
    omega
  have h2 : t < ((l.take i).reverse).length := by
    rw [List.length_reverse, hlen]
    exact ht
  have h3 : i - 1 - t < l.length := by omega
  rw [getD_of_lt _ _ _ h2, getD_of_lt _ _ _ h3, List.getElem_reverse]
  simp only [hlen]
  rw [List.getElem_take]

theorem findAfterTimestamp_eq_none (pm : String → Option Rat) (labs : List String) (i : Nat)
    (h : ∀ j, i < j → j < labs.length → pm (labs.getD j "") = none) :
    findAfterTimestamp pm labs i = none := by
  apply find?_eq_none_of_all
  intro t ht
  have h1 : i + 1 + t < labs.length := by
    rw [List.length_drop] at ht
    omega
  simp only [getD_drop _ _ _ h1, h (i + 1 + t) (by omega) h1, Option.isSome_none]

theorem findAfterTimestamp_eq_some (pm : String → Option Rat) (labs : List String)
    (i j0 : Nat) (hij : i < j0) (hj0 : j0 < labs.length)
    (hsome : (pm (labs.getD j0 "")).isSome = true)
    (hnone : ∀ j, i < j → j < j0 → pm (labs.getD j "") = none) :
    findAfterTimestamp pm labs i = some (labs.getD j0 "") := by
  unfold findAfterTimestamp
  have hlen : j0 - (i + 1) < (labs.drop (i + 1)).length := by
    rw [List.length_drop]
    omega
  have h1 : (labs.drop (i + 1)).getD (j0 - (i + 1)) "" = labs.getD j0 "" := by
    rw [getD_drop _ _ _ (by omega)]
    congr 1
    omega
  rw [← h1]
  apply find?_eq_some_of_first _ _ _ hlen
  · simp only [h1, hsome]
  · intro t htj
    have h2 : i + 1 + t < labs.length := by omega
    simp only [getD_drop _ _ _ h2, hnone (i + 1 + t) (by omega) (by omega), Option.isSome_none]

theorem findBeforeTimestamp_eq_none (pm : String → Option Rat) (labs : List String) (i : Nat)
    (hil : i ≤ labs.length) (h : ∀ j, j < i → pm (labs.getD j "") = none) :
    findBeforeTimestamp pm labs i = none := by
  apply find?_eq_none_of_all
  intro t ht
  have hlen : ((labs.take i).reverse).length = i := by
    rw [List.length_reverse, List.length_take]
    omega
  rw [hlen] at ht
  simp only [getD_reverse_take labs i t hil ht, h (i - 1 - t) (by omega), Option.isSome_none]

theorem findBeforeTimestamp_eq_some (pm : String → Option Rat) (labs : List String)
    (i j1 : Nat) (hji : j1 < i) (hil : i ≤ labs.length)
    (hsome : (pm (labs.getD j1 "")).isSome = true)
    (hnone : ∀ j, j1 < j → j < i → pm (labs.getD j "") = none) :
    findBeforeTimestamp pm labs i = some (labs.getD j1 "") := by
  unfold findBeforeTimestamp
  have hlen : ((labs.take i).reverse).length = i := by
    rw [List.length_reverse, List.length_take]
    omega
  have h1 : ((labs.take i).reverse).getD (i - 1 - j1) "" = labs.getD j1 "" := by
    rw [getD_reverse_take labs i _ hil (by omega)]
    congr 1
    omega
  rw [← h1]
  apply find?_eq_some_of_first _ _ (i - 1 - j1) (by rw [hlen]; omega)
  · simp only [h1, hsome]
  · intro t htj
    have hti : t < i := by omega
    simp only [getD_reverse_take labs i t hil hti,
      hnone (i - 1 - t) (by omega) (by omega), Option.isSome_none]

theorem processChartData_value (dateVal : String → Int) (cryptoData : List CryptoSeries)
    (k i : Nat) (hk : k < cryptoData.length) (hi : i < (labels cryptoData).length) :
    ((processChartData dateVal cryptoData).processedCryptos.getD k
        noProcessed).interpolatedPrices.getD i none
      = interpolatedPriceAt dateVal (priceMap (cryptoData.getD k noSeries))
          (labels cryptoData) i := by
  simp only [processChartData]
  rw [getD_map_of_lt _ _ _ _ noSeries hk]
  simp only []
  rw [getD_map_of_lt _ _ _ _ 0 (by rw [List.length_range]; exact hi)]
  congr 1
  have hr : i < (List.range (labels cryptoData).length).length := by
    rw [List.length_range]
    exact hi
  rw [getD_of_lt _ _ _ hr, List.getElem_range]

end CryptoViz

namespace CryptoViz

/-- C5: if a series has an exact price at the timestamp sitting at timeline
index `i`, the aligned value at `i` is exactly that price — the exact-value
branch of `processChartData` fires before any interpolation. -/
theorem claim_C5_exact_value_preservation (dateVal : String → Int)
    (cryptoData : List CryptoSeries) (k i : Nat) (p : Rat)
    (hk : k < cryptoData.length) (hi : i < (labels cryptoData).length)
    (hp : priceMap (cryptoData.getD k noSeries) ((labels cryptoData).getD i "") = some p) :
    ((processChartData dateVal cryptoData).processedCryptos.getD k
        noProcessed).interpolatedPrices.getD i none = some p := by
  rw [processChartData_value dateVal cryptoData k i hk hi]
  simp only [interpolatedPriceAt, hp]

/-- C5 witness: BTC has an exact point (price 100) at the first timeline
index, and its aligned value there is exactly 100. -/
theorem claim_C5_witness :
    0 < ([btcW, ethW] : List CryptoSeries).length ∧
    0 < (labels [btcW, ethW]).length ∧
    priceMap (([btcW, ethW] : List CryptoSeries).getD 0 noSeries)
      ((labels [btcW, ethW]).getD 0 "") = some 100 ∧
    ((processChartData epochDateVal [btcW, ethW]).processedCryptos.getD 0
        noProcessed).interpolatedPrices.getD 0 none = some 100 := by
  have hlab : labels [btcW, ethW] = ["1", "2", "3"] := by decide
  have hp : priceMap (([btcW, ethW] : List CryptoSeries).getD 0 noSeries)
      ((labels [btcW, ethW]).getD 0 "") = some 100 := by
    rw [hlab]
    simp [priceMap, btcW, List.lookup]
  refine ⟨by norm_num, by rw [hlab]; norm_num, hp, ?_⟩
  exact claim_C5_exact_value_preservation epochDateVal [btcW, ethW] 0 0 100
    (by norm_num) (by rw [hlab]; norm_num) hp

/-- C4: flat edge extrapolation.  For a series `S = cryptoData[k]`: a
timeline index `i` strictly before `S`'s first known index `j0` (every
earlier index unknown) receives exactly the first known value, and an index
`i` strictly after `S`'s last known index `j1` (every later index unknown)
receives exactly the last known value.  Timestamps are assumed non-empty
strings, as the falsy empty string would defeat the JS truthiness checks. -/
theorem claim_C4_edge_extrapolation (dateVal : String → Int)
    (cryptoData : List CryptoSeries) (k : Nat) (hk : k < cryptoData.length) :
    (∀ i j0 p, i < j0 → j0 < (labels cryptoData).length →
      priceMap (cryptoData.getD k noSeries) ((labels cryptoData).getD j0 "") = some p →
      (labels cryptoData).getD j0 "" ≠ "" →
      (∀ j, j < j0 →
        priceMap (cryptoData.getD k noSeries) ((labels cryptoData).getD j "") = none) →
      ((processChartData dateVal cryptoData).processedCryptos.getD k
          noProcessed).interpolatedPrices.getD i none = some p) ∧
    (∀ i j1 p, j1 < i → i < (labels cryptoData).length →
      priceMap (cryptoData.getD k noSeries) ((labels cryptoData).getD j1 "") = some p →
      (labels cryptoData).getD j1 "" ≠ "" →
      (∀ j, j1 < j → j < (labels cryptoData).length →
        priceMap (cryptoData.getD k noSeries) ((labels cryptoData).getD j "") = none) →
      ((processChartData dateVal cryptoData).processedCryptos.getD k
          noProcessed).interpolatedPrices.getD i none = some p) := by
  constructor
  · intro i j0 p hij hj0 hp hne hnone
    rw [processChartData_value dateVal cryptoData k i hk (lt_trans hij hj0)]
    simp only [interpolatedPriceAt, hnone i hij]
    rw [findBeforeTimestamp_eq_none _ _ _ (by omega)
      (fun j hj => hnone j (lt_trans hj hij))]
    rw [findAfterTimestamp_eq_some _ _ i j0 hij hj0 (by rw [hp]; rfl)
      (fun j hj1 hj2 => hnone j hj2)]
    simp only [if_neg hne, hp]
  · intro i j1 p hji hi hp hne hnone
    rw [processChartData_value dateVal cryptoData k i hk hi]
    simp only [interpolatedPriceAt, hnone i hji hi]
    rw [findBeforeTimestamp_eq_some _ _ i j1 hji (le_of_lt hi) (by rw [hp]; rfl)
      (fun j hj1 hj2 => hnone j hj1 (lt_trans hj2 hi))]
    rw [findAfterTimestamp_eq_none _ _ _
      (fun j hj1 hj2 => hnone j (lt_trans hji hj1) hj2)]
    simp only [if_neg hne, hp]

/-- C4 witness: the spec's concrete scenario.  On the timeline
`["1", "2", "3"]` built from BTC `[(1,100),(3,110)]` and ETH `[(2,50)]`,
the single-point ETH series extrapolates flat in both directions, giving
`[50, 50, 50]`, and the full aligned output also interpolates BTC to
`[100, 105, 110]`. -/
theorem claim_C4_witness :
    (1 < ([btcW, ethW] : List CryptoSeries).length) ∧
    (priceMap (([btcW, ethW] : List CryptoSeries).getD 1 noSeries)
        ((labels [btcW, ethW]).getD 1 "") = some 50) ∧
    ((labels [btcW, ethW]).getD 1 "" ≠ "") ∧
    (∀ j, j < 1 →
      priceMap (([btcW, ethW] : List CryptoSeries).getD 1 noSeries)
        ((labels [btcW, ethW]).getD j "") = none) ∧
    (∀ j, 1 < j → j < (labels [btcW, ethW]).length →
      priceMap (([btcW, ethW] : List CryptoSeries).getD 1 noSeries)
        ((labels [btcW, ethW]).getD j "") = none) ∧
    ((processChartData epochDateVal [btcW, ethW]).processedCryptos.getD 1
        noProcessed).interpolatedPrices.getD 0 none = some 50 ∧
    ((processChartData epochDateVal [btcW, ethW]).processedCryptos.getD 1
        noProcessed).interpolatedPrices.getD 2 none = some 50 ∧
    processChartData epochDateVal [btcW, ethW] =
      ⟨["1", "2", "3"],
       [⟨"btc", [some 100, some 105, some 110]⟩,
        ⟨"eth", [some 50, some 50, some 50]⟩]⟩ := by
  have hlab : labels [btcW, ethW] = ["1", "2", "3"] := by decide
  have hp : priceMap (([btcW, ethW] : List CryptoSeries).getD 1 noSeries)
      ((labels [btcW, ethW]).getD 1 "") = some 50 := by
    rw [hlab]
    simp [priceMap, ethW, List.lookup]
  have hb : ∀ j, j < 1 →
      priceMap (([btcW, ethW] : List CryptoSeries).getD 1 noSeries)
        ((labels [btcW, ethW]).getD j "") = none := by
    intro j hj
    have hj0 : j = 0 := by omega
    subst hj0
    rw [hlab]
    simp [priceMap, ethW, List.lookup]
  have ha : ∀ j, 1 < j → j < (labels [btcW, ethW]).length →
      priceMap (([btcW, ethW] : List CryptoSeries).getD 1 noSeries)
        ((labels [btcW, ethW]).getD j "") = none := by
    intro j h1 h2
    rw [hlab] at h2 ⊢
    have hj2 : j = 2 := by
      simp at h2
      omega
    subst hj2
    simp [priceMap, ethW, List.lookup]
  refine ⟨by norm_num, hp, by rw [hlab]; decide, hb, ha, ?_, ?_, ?_⟩
  · exact (claim_C4_edge_extrapolation epochDateVal [btcW, ethW] 1 (by norm_num)).1 0 1 50
      (by norm_num) (by rw [hlab]; norm_num) hp (by rw [hlab]; decide) hb
  · exact (claim_C4_edge_extrapolation epochDateVal [btcW, ethW] 1 (by norm_num)).2 2 1 50
      (by norm_num) (by rw [hlab]; norm_num) hp (by rw [hlab]; decide) ha
  · simp [processChartData, labels, btcW, ethW, sortStrings, insertSorted, jsStringLe,
      charListLt, interpolatedPriceAt, findBeforeTimestamp, findAfterTimestamp, priceMap,
      List.lookup, epochDateVal, List.range_succ]
    norm_num

end CryptoViz

namespace CryptoViz

/-- C2: when a series has no exact value at timeline index `i` but the scans
find a nearest earlier known timestamp `bt` (price `p0`) and a nearest later
known timestamp `af` (price `p1`), and the wall-clock times are strictly
increasing (`t0 < t < t1`, as they are whenever lexicographic and
chronological order agree, e.g. for uniform-format timestamps), the aligned
value is exactly `p0 + (p1 - p0) * (t - t0) / (t1 - t0)` and lies between
`min p0 p1` and `max p0 p1` inclusive. -/
theorem claim_C2_linear_interpolation (dateVal : String → Int)
    (cryptoData : List CryptoSeries) (k i : Nat) (bt af : String) (p0 p1 : Rat)
    (hk : k < cryptoData.length) (hi : i < (labels cryptoData).length)
    (hmiss : priceMap (cryptoData.getD k noSeries) ((labels cryptoData).getD i "") = none)
    (hb : findBeforeTimestamp (priceMap (cryptoData.getD k noSeries))
        (labels cryptoData) i = some bt)
    (ha : findAfterTimestamp (priceMap (cryptoData.getD k noSeries))
        (labels cryptoData) i = some af)
    (hbne : bt ≠ "") (hane : af ≠ "")
    (hp0 : priceMap (cryptoData.getD k noSeries) bt = some p0)
    (hp1 : priceMap (cryptoData.getD k noSeries) af = some p1)
    (ht0 : dateVal bt < dateVal ((labels cryptoData).getD i ""))
    (ht1 : dateVal ((labels cryptoData).getD i "") < dateVal af) :
    ∃ v,
      ((processChartData dateVal cryptoData).processedCryptos.getD k
          noProcessed).interpolatedPrices.getD i none = some v ∧
      v = p0 + (p1 - p0) *
          ((dateVal ((labels cryptoData).getD i "") : Rat) - (dateVal bt : Rat)) /
          ((dateVal af : Rat) - (dateVal bt : Rat)) ∧
      min p0 p1 ≤ v ∧ v ≤ max p0 p1 := by
  rw [processChartData_value dateVal cryptoData k i hk hi]
  simp only [interpolatedPriceAt, hmiss, hb, ha, if_neg hbne, if_neg hane, hp0, hp1,
    Option.getD_some]
  have hlt0 : ((dateVal bt : Int) : Rat) < ((dateVal ((labels cryptoData).getD i "") : Int) : Rat) := by
    exact_mod_cast ht0
  have hlt1 : ((dateVal ((labels cryptoData).getD i "") : Int) : Rat) < ((dateVal af : Int) : Rat) := by
    exact_mod_cast ht1
  have hden : (0 : Rat) < (dateVal af : Rat) - (dateVal bt : Rat) := by linarith
  have hr0 : (0 : Rat) ≤
      ((dateVal ((labels cryptoData).getD i "") : Rat) - (dateVal bt : Rat)) /
        ((dateVal af : Rat) - (dateVal bt : Rat)) :=
    div_nonneg (by linarith) (le_of_lt hden)
  have hr1 : ((dateVal ((labels cryptoData).getD i "") : Rat) - (dateVal bt : Rat)) /
        ((dateVal af : Rat) - (dateVal bt : Rat)) ≤ 1 :=
    (div_le_one hden).2 (by linarith)
  refine ⟨_, rfl, by ring, ?_, ?_⟩
  · rcases le_total p0 p1 with h | h
    · rw [min_eq_left h]
      nlinarith
    · rw [min_eq_right h]
      nlinarith
  · rcases le_total p0 p1 with h | h
    · rw [max_eq_right h]
      nlinarith
    · rw [max_eq_left h]
      nlinarith

/-- C2 witness: on the concrete BTC/ETH batch, BTC is missing at timeline
index 1 ("2"), its neighbours are ("1", 100) and ("3", 110), and the aligned
value is `100 + (110 - 100) * (2 - 1) / (3 - 1) = 105`, between 100 and 110. -/
theorem claim_C2_witness :
    priceMap (([btcW, ethW] : List CryptoSeries).getD 0 noSeries)
      ((labels [btcW, ethW]).getD 1 "") = none ∧
    findBeforeTimestamp (priceMap (([btcW, ethW] : List CryptoSeries).getD 0 noSeries))
      (labels [btcW, ethW]) 1 = some "1" ∧
    findAfterTimestamp (priceMap (([btcW, ethW] : List CryptoSeries).getD 0 noSeries))
      (labels [btcW, ethW]) 1 = some "3" ∧
    priceMap (([btcW, ethW] : List CryptoSeries).getD 0 noSeries) "1" = some 100 ∧
    priceMap (([btcW, ethW] : List CryptoSeries).getD 0 noSeries) "3" = some 110 ∧
    epochDateVal "1" < epochDateVal ((labels [btcW, ethW]).getD 1 "") ∧
    epochDateVal ((labels [btcW, ethW]).getD 1 "") < epochDateVal "3" ∧
    (∃ v,
      ((processChartData epochDateVal [btcW, ethW]).processedCryptos.getD 0
          noProcessed).interpolatedPrices.getD 1 none = some v ∧
      v = 100 + (110 - 100) *
          ((epochDateVal ((labels [btcW, ethW]).getD 1 "") : Rat) - (epochDateVal "1" : Rat)) /
          ((epochDateVal "3" : Rat) - (epochDateVal "1" : Rat)) ∧
      min (100 : Rat) 110 ≤ v ∧ v ≤ max (100 : Rat) 110) := by
  have hlab : labels [btcW, ethW] = ["1", "2", "3"] := by decide
  have hmiss : priceMap (([btcW, ethW] : List CryptoSeries).getD 0 noSeries)
      ((labels [btcW, ethW]).getD 1 "") = none := by
    rw [hlab]
    simp [priceMap, btcW, List.lookup]
  have hb : findBeforeTimestamp (priceMap (([btcW, ethW] : List CryptoSeries).getD 0 noSeries))
      (labels [btcW, ethW]) 1 = some "1" := by
    rw [hlab]
    simp [findBeforeTimestamp, priceMap, btcW, List.lookup]
  have ha : findAfterTimestamp (priceMap (([btcW, ethW] : List CryptoSeries).getD 0 noSeries))
      (labels [btcW, ethW]) 1 = some "3" := by
    rw [hlab]
    simp [findAfterTimestamp, priceMap, btcW, List.lookup]
  have hp0 : priceMap (([btcW, ethW] : List CryptoSeries).getD 0 noSeries) "1" = some 100 := by
    simp [priceMap, btcW, List.lookup]
  have hp1 : priceMap (([btcW, ethW] : List CryptoSeries).getD 0 noSeries) "3" = some 110 := by
    simp [priceMap, btcW, List.lookup]
  refine ⟨hmiss, hb, ha, hp0, hp1, by rw [hlab]; decide, by rw [hlab]; decide, ?_⟩
  exact claim_C2_linear_interpolation epochDateVal [btcW, ethW] 0 1 "1" "3" 100 110
    (by norm_num) (by rw [hlab]; norm_num) hmiss hb ha (by decide) (by decide) hp0 hp1
    (by rw [hlab]; decide) (by rw [hlab]; decide)

end CryptoViz

namespace CryptoViz

theorem priceMap_of_empty (c : CryptoSeries) (hc : c.timestamps = []) (ts : String) :
    priceMap c ts = none := by
  simp [priceMap, hc]

theorem interpolatedPriceAt_of_allNone (dateVal : String → Int) (pm : String → Option Rat)
    (labs : List String) (i : Nat) (h : ∀ ts, pm ts = none) :
    interpolatedPriceAt dateVal pm labs i = none := by
  have hbefore : findBeforeTimestamp pm labs i = none := by
    apply find?_eq_none_of_all
    intro t ht
    simp [h]
  have hafter : findAfterTimestamp pm labs i = none := by
    apply find?_eq_none_of_all
    intro t ht
    simp [h]
  simp only [interpolatedPriceAt, h, hbefore, hafter]

/-- C6: aligning a batch in which one series is empty does not fail: the
timeline is unchanged, the empty series aligns to all-null, and every other
series' aligned values are exactly what they are for the batch with the
empty series removed. -/
theorem claim_C6_empty_series_harmless (dateVal : String → Int)
    (pre post : List CryptoSeries) (c : CryptoSeries) (hc : c.timestamps = []) :
    labels (pre ++ c :: post) = labels (pre ++ post) ∧
    (processChartData dateVal (pre ++ c :: post)).processedCryptos =
      (processChartData dateVal (pre ++ post)).processedCryptos.take pre.length
        ++ ⟨c.symbol, List.replicate (labels (pre ++ post)).length none⟩ ::
          (processChartData dateVal (pre ++ post)).processedCryptos.drop pre.length := by
  have hlab : labels (pre ++ c :: post) = labels (pre ++ post) := by
    simp [labels, hc]
  refine ⟨hlab, ?_⟩
  simp only [processChartData, List.map_append, List.map_cons, hlab]
  rw [List.take_left' (by rw [List.length_map]), List.drop_left' (by rw [List.length_map])]
  congr 1
  congr 1
  have hall : ∀ i, interpolatedPriceAt dateVal (priceMap c) (labels (pre ++ post)) i
      = none := fun i =>
    interpolatedPriceAt_of_allNone dateVal (priceMap c) (labels (pre ++ post)) i
      (priceMap_of_empty c hc)
  rw [List.map_congr_left (fun a _ => hall a), List.map_const', List.length_range]

/-- C6 witness: inserting the empty series between BTC and ETH leaves the
timeline and the BTC/ETH aligned values unchanged and aligns the empty
series to all-null. -/
theorem claim_C6_witness :
    emptyW.timestamps = [] ∧
    (labels [btcW, emptyW, ethW] = labels [btcW, ethW] ∧
     (processChartData epochDateVal [btcW, emptyW, ethW]).processedCryptos =
       (processChartData epochDateVal [btcW, ethW]).processedCryptos.take 1
         ++ ⟨emptyW.symbol, List.replicate (labels [btcW, ethW]).length none⟩ ::
           (processChartData epochDateVal [btcW, ethW]).processedCryptos.drop 1) :=
  ⟨rfl, claim_C6_empty_series_harmless epochDateVal [btcW] [ethW] emptyW rfl⟩

end CryptoViz
